import Mathlib

/-!
Verification of the lossy QOI encoder (`lossyqoi.c`).

The first half of this file is a shallow embedding of the encoder:
pixels, the 64-slot color cache, the per-pixel opcode selection
(`qoi_write_pixel`), the stream driver, header and footer
(`convert_to_qoi`).  Machine bytes are modelled as `Nat` values below 256,
C `int` arithmetic (deltas, the lossiness threshold) as `Int`.

The second half proves the testable properties of the specification:
the lossless round trip at threshold 0 against a reference QOI decoder,
run-counter invariants, run-cap behaviour, cache and alpha behaviour,
and the behaviour for negative thresholds.
-/

/-- A pixel: four unsigned 8-bit channels. Channels are modelled as `Nat`;
`Pix.valid` states the 8-bit range where arithmetic needs it. -/
structure Pix where
  r : Nat
  g : Nat
  b : Nat
  a : Nat
deriving DecidableEq

/-- All four channels are in the unsigned 8-bit range. -/
def Pix.valid (p : Pix) : Prop :=
  p.r < 256 ∧ p.g < 256 ∧ p.b < 256 ∧ p.a < 256

instance (p : Pix) : Decidable p.valid := by
  unfold Pix.valid; infer_instance

/-- The all-zero pixel, the initial content of every cache slot. -/
def zeroPix : Pix := ⟨0, 0, 0, 0⟩

def QOI_OP_INDEX : Nat := 0x00
def QOI_OP_DIFF : Nat := 0x40
def QOI_OP_LUMA : Nat := 0x80
def QOI_OP_RUN : Nat := 0xc0
def QOI_OP_RGB : Nat := 0xfe
def QOI_OP_RGBA : Nat := 0xff

/-- Hash function for the color cache (`qoi_color_hash` in the source). -/
def qoi_color_hash (px : Pix) : Nat :=
  (px.r * 3 + px.g * 5 + px.b * 7 + px.a * 11) % 64

/-- Lossy nearness test (`qoi_px_near`): each color channel within
`threshold`, alpha exactly equal.  The threshold is a C `int`, hence `Int`. -/
def qoi_px_near (a b : Pix) (threshold : Int) : Bool :=
  decide (|(a.r : Int) - (b.r : Int)| ≤ threshold ∧
          |(a.g : Int) - (b.g : Int)| ≤ threshold ∧
          |(a.b : Int) - (b.b : Int)| ≤ threshold ∧
          a.a = b.a)

/-- Encoder state (`qoi_encoder`): pending run counter, previous pixel,
64-slot color cache, lossiness threshold.  The output file handle is
replaced by returning emitted bytes explicitly. -/
structure qoi_encoder where
  run : Nat
  prev_px : Pix
  index : List Pix
  lossiness : Int
deriving DecidableEq

/-- Encoder initialization (`qoi_encoder_init`): zeroed state, previous
pixel `(0,0,0,255)`. -/
def qoi_encoder_init (lossiness : Int) : qoi_encoder :=
  { run := 0
    prev_px := ⟨0, 0, 0, 255⟩
    index := List.replicate 64 zeroPix
    lossiness := lossiness }

/-- Per-pixel decision (`qoi_write_pixel`).  Returns the new state and
the bytes written to the file for this pixel. -/
def qoi_write_pixel (enc : qoi_encoder) (px : Pix) : qoi_encoder × List Nat :=
  if qoi_px_near px enc.prev_px enc.lossiness then
    let run' := enc.run + 1
    if run' = 62 then
      ({ enc with run := 0 }, [QOI_OP_RUN ||| 61])
    else
      ({ enc with run := run' }, [])
  else
    let flush : List Nat :=
      if 0 < enc.run then [QOI_OP_RUN ||| (enc.run - 1)] else []
    let index_pos := qoi_color_hash px
    if enc.index.getD index_pos zeroPix = px then
      ({ enc with run := 0, prev_px := px },
       flush ++ [QOI_OP_INDEX ||| index_pos])
    else
      let idx2 := enc.index.set index_pos px
      let dr : Int := (px.r : Int) - (enc.prev_px.r : Int)
      let dg : Int := (px.g : Int) - (enc.prev_px.g : Int)
      let db : Int := (px.b : Int) - (enc.prev_px.b : Int)
      let da : Int := (px.a : Int) - (enc.prev_px.a : Int)
      if da = 0 ∧ -2 ≤ dr ∧ dr ≤ 1 ∧ -2 ≤ dg ∧ dg ≤ 1 ∧ -2 ≤ db ∧ db ≤ 1 then
        ({ enc with run := 0, prev_px := px, index := idx2 },
         flush ++ [QOI_OP_DIFF ||| ((dr + 2).toNat <<< 4) |||
                   ((dg + 2).toNat <<< 2) ||| (db + 2).toNat])
      else if da = 0 ∧ -32 ≤ dg ∧ dg ≤ 31 ∧
              -8 ≤ dr - dg ∧ dr - dg ≤ 7 ∧ -8 ≤ db - dg ∧ db - dg ≤ 7 then
        ({ enc with run := 0, prev_px := px, index := idx2 },
         flush ++ [QOI_OP_LUMA ||| (dg + 32).toNat,
                   ((dr - dg + 8).toNat <<< 4) ||| (db - dg + 8).toNat])
      else if px.a = enc.prev_px.a then
        ({ enc with run := 0, prev_px := px, index := idx2 },
         flush ++ [QOI_OP_RGB, px.r, px.g, px.b])
      else
        ({ enc with run := 0, prev_px := px, index := idx2 },
         flush ++ [QOI_OP_RGBA, px.r, px.g, px.b, px.a])

/-- The per-pixel loop of `convert_to_qoi`: feed the pixels in order,
concatenating the emitted bytes. -/
def qoi_encode_pixels : qoi_encoder → List Pix → qoi_encoder × List Nat
  | enc, [] => (enc, [])
  | enc, px :: pxs =>
    match qoi_write_pixel enc px with
    | (enc1, out1) =>
      match qoi_encode_pixels enc1 pxs with
      | (enc2, out2) => (enc2, out1 ++ out2)

/-- The final-run flush of `convert_to_qoi` (lines 163-166). -/
def qoi_finalize (enc : qoi_encoder) : List Nat :=
  if 0 < enc.run then [QOI_OP_RUN ||| (enc.run - 1)] else []

/-- Header writer (`qoi_write_header`): magic, big-endian width and height,
channel count,
color-space byte 0.  Each byte is truncated to 8 bits as by `(uint8_t)`. -/
def qoi_write_header (width height channels : Nat) : List Nat :=
  [113, 111, 105, 102,
   (width >>> 24) % 256, (width >>> 16) % 256, (width >>> 8) % 256, width % 256,
   (height >>> 24) % 256, (height >>> 16) % 256, (height >>> 8) % 256, height % 256,
   channels % 256, 0]

/-- Footer writer (`qoi_write_footer`): the fixed 8-byte terminator. -/
def qoi_write_footer : List Nat := [0, 0, 0, 0, 0, 0, 0, 1]

/-- The byte stream produced by `convert_to_qoi` for a decoded raster:
header, per-pixel opcodes, final run flush, footer. -/
def convert_to_qoi (pxs : List Pix) (width height channels : Nat)
    (lossiness : Int) : List Nat :=
  qoi_write_header width height channels
    ++ (qoi_encode_pixels (qoi_encoder_init lossiness) pxs).2
    ++ qoi_finalize (qoi_encode_pixels (qoi_encoder_init lossiness) pxs).1
    ++ qoi_write_footer

/-- Modelled from the spec: recursion core of the reference decoder,
structural over a fuel argument so that it evaluates by reduction.  Every
opcode consumes at least one byte, so the byte count is sufficient fuel;
`qoi_decode_go` is insensitive to any fuel at least the byte count
(`decode_go_fuel`). -/
def qoi_decode_go : Nat → List Nat → Pix → List Pix → List Pix
  | 0, _, _, _ => []
  | _ + 1, [], _, _ => []
  | f + 1, b :: bs, px, index =>
    if b = 254 then
      let px2 : Pix := ⟨bs.getD 0 0, bs.getD 1 0, bs.getD 2 0, px.a⟩
      px2 :: qoi_decode_go f (bs.drop 3) px2 (index.set (qoi_color_hash px2) px2)
    else if b = 255 then
      let px2 : Pix := ⟨bs.getD 0 0, bs.getD 1 0, bs.getD 2 0, bs.getD 3 0⟩
      px2 :: qoi_decode_go f (bs.drop 4) px2 (index.set (qoi_color_hash px2) px2)
    else if b / 64 = 0 then
      let px2 := index.getD b zeroPix
      px2 :: qoi_decode_go f bs px2 (index.set (qoi_color_hash px2) px2)
    else if b / 64 = 1 then
      let px2 : Pix := ⟨(px.r + 254 + b / 16 % 4) % 256,
                        (px.g + 254 + b / 4 % 4) % 256,
                        (px.b + 254 + b % 4) % 256, px.a⟩
      px2 :: qoi_decode_go f bs px2 (index.set (qoi_color_hash px2) px2)
    else if b / 64 = 2 then
      let b2 := bs.getD 0 0
      let px2 : Pix := ⟨(px.r + 216 + b % 64 + b2 / 16) % 256,
                        (px.g + 224 + b % 64) % 256,
                        (px.b + 216 + b % 64 + b2 % 16) % 256, px.a⟩
      px2 :: qoi_decode_go f (bs.drop 1) px2 (index.set (qoi_color_hash px2) px2)
    else
      List.replicate (b % 64 + 1) px
        ++ qoi_decode_go f bs px (index.set (qoi_color_hash px) px)

/-- Modelled from the spec: a reference QOI decoder for the opcode stream
(not part of this repository; §6 opcode table of the specification and the
public QOI format).  `px` is the previously decoded pixel, `index` the
cache of the decoder (64 slots); after every opcode the decoded pixel is stored at
its hash slot.  Differential forms add the biased deltas modulo 256
(`254 ≡ -2`, `224 ≡ -32`, `216 ≡ -40`, `+ hi` and `+ lo` carry `-8` inside
the `216`).  Payload bytes of RGB, RGBA and LUMA opcodes are read with
`getD`, which assumes a well-formed stream (as produced by the encoder). -/
def qoi_decode (bytes : List Nat) (px : Pix) (index : List Pix) : List Pix :=
  qoi_decode_go bytes.length bytes px index

/-- Recursion core of `runOps`, structural over fuel (one unit per
opcode; the byte count is sufficient fuel). -/
def runOps_go : Nat → List Nat → List Nat
  | 0, _ => []
  | _ + 1, [] => []
  | f + 1, b :: bs =>
    if b = 254 then runOps_go f (bs.drop 3)
    else if b = 255 then runOps_go f (bs.drop 4)
    else if b / 64 = 2 then runOps_go f (bs.drop 1)
    else if b / 64 = 3 then (b % 64 + 1) :: runOps_go f bs
    else runOps_go f bs

/-- The run lengths encoded by the RUN opcodes of an opcode stream, in
order, skipping the payload bytes of RGB, RGBA and LUMA opcodes.  A stored
value `v` encodes a run of `v + 1` pixels. -/
def runOps (bytes : List Nat) : List Nat := runOps_go bytes.length bytes

/-- The number of pixels of a sequence absorbed into runs (the pixels for
which `qoi_write_pixel` takes the near branch). -/
def runAbsorbed : qoi_encoder → List Pix → Nat
  | _, [] => 0
  | enc, px :: pxs =>
    (if qoi_px_near px enc.prev_px enc.lossiness then 1 else 0)
      + runAbsorbed (qoi_write_pixel enc px).1 pxs

/-- Absorption count as a function of the previous pixel and the threshold
only (the cache and run counter play no role in absorption). -/
def absorbCount (prev : Pix) (t : Int) : List Pix → Nat
  | [] => 0
  | px :: pxs =>
    if qoi_px_near px prev t then 1 + absorbCount prev t pxs
    else absorbCount px t pxs

/-! ### Arithmetic helper lemmas for opcode bytes -/

lemma shl4_lor_eq : ∀ x < 16, ∀ y < 16, x <<< 4 ||| y = 16 * x + y := by decide

lemma diff_byte_eq : ∀ x < 4, ∀ y < 4, ∀ z < 4,
    64 ||| (x <<< 4) ||| (y <<< 2) ||| z = 64 + 16 * x + 4 * y + z := by decide

lemma luma1_byte_eq : ∀ d < 64, 128 ||| d = 128 + d := by decide

lemma run_byte_eq : ∀ v < 64, 192 ||| v = 192 + v := by decide

lemma hash_lt (px : Pix) : qoi_color_hash px < 64 :=
  Nat.mod_lt _ (by decide)

lemma hash_zeroPix : qoi_color_hash zeroPix = 0 := by decide

lemma pix_eq_iff (a b : Pix) :
    a = b ↔ a.r = b.r ∧ a.g = b.g ∧ a.b = b.b ∧ a.a = b.a := by
  cases a; cases b; simp

/-! ### List helper lemmas -/

lemma getD_set_self {α : Type} :
    ∀ (l : List α) (i : Nat) (v d : α), i < l.length →
      (l.set i v).getD i d = v := by
  intro l
  induction l with
  | nil => intro i v d h; simp at h
  | cons a t ih =>
    intro i v d h
    cases i with
    | zero => simp
    | succ n =>
      simp only [List.set_cons_succ, List.getD_cons_succ]
      exact ih n v d (by simpa using h)

lemma getD_set_other {α : Type} :
    ∀ (l : List α) (i j : Nat) (v d : α), i ≠ j →
      (l.set i v).getD j d = l.getD j d := by
  intro l
  induction l with
  | nil => intro i j v d _; simp
  | cons a t ih =>
    intro i j v d h
    cases i with
    | zero =>
      cases j with
      | zero => exact absurd rfl h
      | succ m => simp
    | succ n =>
      cases j with
      | zero => simp
      | succ m =>
        simp only [List.set_cons_succ, List.getD_cons_succ]
        exact ih n m v d (by omega)

lemma replicate_append_cons {α : Type} (n : Nat) (a : α) (l : List α) :
    List.replicate n a ++ a :: l = List.replicate (n + 1) a ++ l := by
  rw [List.replicate_succ']
  simp

/-! ### Nearness lemmas -/

lemma near_iff (a b : Pix) (t : Int) :
    qoi_px_near a b t = true ↔
      (|(a.r : Int) - (b.r : Int)| ≤ t ∧ |(a.g : Int) - (b.g : Int)| ≤ t ∧
       |(a.b : Int) - (b.b : Int)| ≤ t ∧ a.a = b.a) := by
  unfold qoi_px_near
  exact decide_eq_true_iff

lemma near_zero_iff (a b : Pix) : qoi_px_near a b 0 = true ↔ a = b := by
  rw [near_iff, pix_eq_iff]
  constructor
  · rintro ⟨h1, h2, h3, h4⟩
    rw [abs_nonpos_iff, sub_eq_zero, Nat.cast_inj] at h1 h2 h3
    exact ⟨h1, h2, h3, h4⟩
  · rintro ⟨h1, h2, h3, h4⟩
    rw [h1, h2, h3]
    simp [h4]

lemma near_self (a : Pix) (t : Int) (ht : 0 ≤ t) : qoi_px_near a a t = true := by
  rw [near_iff]
  refine ⟨?_, ?_, ?_, rfl⟩ <;> simp [ht]

/-! ### Fuel insensitivity -/

lemma decode_go_fuel : ∀ (f1 : Nat) (bytes : List Nat) (f2 : Nat),
    bytes.length ≤ f1 → bytes.length ≤ f2 →
    ∀ (px : Pix) (idx : List Pix),
      qoi_decode_go f1 bytes px idx = qoi_decode_go f2 bytes px idx := by
  intro f1
  induction f1 with
  | zero =>
    intro bytes f2 h1 _ px idx
    have hb : bytes = [] := List.eq_nil_of_length_eq_zero (by omega)
    subst hb
    cases f2 <;> rfl
  | succ f ihf =>
    intro bytes f2 h1 h2 px idx
    cases bytes with
    | nil => cases f2 <;> rfl
    | cons b bs =>
      cases f2 with
      | zero => simp at h2
      | succ g =>
        simp only [List.length_cons] at h1 h2
        simp only [qoi_decode_go]
        split_ifs
        · rw [ihf _ g (by rw [List.length_drop]; omega)
            (by rw [List.length_drop]; omega)]
        · rw [ihf _ g (by rw [List.length_drop]; omega)
            (by rw [List.length_drop]; omega)]
        · rw [ihf bs g (by omega) (by omega)]
        · rw [ihf bs g (by omega) (by omega)]
        · rw [ihf _ g (by rw [List.length_drop]; omega)
            (by rw [List.length_drop]; omega)]
        · rw [ihf bs g (by omega) (by omega)]

lemma runOps_go_fuel : ∀ (f1 : Nat) (bytes : List Nat) (f2 : Nat),
    bytes.length ≤ f1 → bytes.length ≤ f2 →
    runOps_go f1 bytes = runOps_go f2 bytes := by
  intro f1
  induction f1 with
  | zero =>
    intro bytes f2 h1 _
    have hb : bytes = [] := List.eq_nil_of_length_eq_zero (by omega)
    subst hb
    cases f2 <;> rfl
  | succ f ihf =>
    intro bytes f2 h1 h2
    cases bytes with
    | nil => cases f2 <;> rfl
    | cons b bs =>
      cases f2 with
      | zero => simp at h2
      | succ g =>
        simp only [List.length_cons] at h1 h2
        simp only [runOps_go]
        split_ifs
        · exact ihf _ g (by rw [List.length_drop]; omega)
            (by rw [List.length_drop]; omega)
        · exact ihf _ g (by rw [List.length_drop]; omega)
            (by rw [List.length_drop]; omega)
        · exact ihf _ g (by rw [List.length_drop]; omega)
            (by rw [List.length_drop]; omega)
        · rw [ihf bs g (by omega) (by omega)]
        · exact ihf bs g (by omega) (by omega)

/-! ### Decoder unfolding lemmas, one per opcode shape -/

lemma decode_nil_eq (px : Pix) (idx : List Pix) : qoi_decode [] px idx = [] :=
  rfl

lemma decode_rgb (r g b : Nat) (bs : List Nat) (dpx : Pix) (didx : List Pix)
    (q : Pix) (hq : q = ⟨r, g, b, dpx.a⟩) :
    qoi_decode (254 :: r :: g :: b :: bs) dpx didx =
      q :: qoi_decode bs q (didx.set (qoi_color_hash q) q) := by
  subst hq
  simp only [qoi_decode, List.length_cons]
  rw [qoi_decode_go]
  norm_num [List.getD_cons_zero, List.getD_cons_succ, List.drop_succ_cons,
    List.drop_zero]
  rw [decode_go_fuel (bs.length + 3) bs bs.length (by omega) (by omega)]

lemma decode_rgba (r g b a : Nat) (bs : List Nat) (dpx : Pix)
    (didx : List Pix) (q : Pix) (hq : q = ⟨r, g, b, a⟩) :
    qoi_decode (255 :: r :: g :: b :: a :: bs) dpx didx =
      q :: qoi_decode bs q (didx.set (qoi_color_hash q) q) := by
  subst hq
  simp only [qoi_decode, List.length_cons]
  rw [qoi_decode_go]
  norm_num [List.getD_cons_zero, List.getD_cons_succ, List.drop_succ_cons,
    List.drop_zero]
  rw [decode_go_fuel (bs.length + 4) bs bs.length (by omega) (by omega)]

lemma decode_index (s : Nat) (hs : s < 64) (bs : List Nat) (dpx : Pix)
    (didx : List Pix) :
    qoi_decode (s :: bs) dpx didx =
      didx.getD s zeroPix ::
        qoi_decode bs (didx.getD s zeroPix)
          (didx.set (qoi_color_hash (didx.getD s zeroPix))
            (didx.getD s zeroPix)) := by
  have h1 : ¬(s = 254) := by omega
  have h2 : ¬(s = 255) := by omega
  have h3 : s / 64 = 0 := by omega
  simp only [qoi_decode, List.length_cons, qoi_decode_go, if_neg h1,
    if_neg h2, if_pos h3]

lemma decode_diff (x y z : Nat) (hx : x < 4) (hy : y < 4) (hz : z < 4)
    (bs : List Nat) (dpx : Pix) (didx : List Pix) (q : Pix)
    (hq : q = ⟨(dpx.r + 254 + x) % 256, (dpx.g + 254 + y) % 256,
               (dpx.b + 254 + z) % 256, dpx.a⟩) :
    qoi_decode ((64 + 16 * x + 4 * y + z) :: bs) dpx didx =
      q :: qoi_decode bs q (didx.set (qoi_color_hash q) q) := by
  have h1 : ¬(64 + 16 * x + 4 * y + z = 254) := by omega
  have h2 : ¬(64 + 16 * x + 4 * y + z = 255) := by omega
  have h3 : ¬((64 + 16 * x + 4 * y + z) / 64 = 0) := by omega
  have h4 : (64 + 16 * x + 4 * y + z) / 64 = 1 := by omega
  have e1 : (64 + 16 * x + 4 * y + z) / 16 % 4 = x := by omega
  have e2 : (64 + 16 * x + 4 * y + z) / 4 % 4 = y := by omega
  have e3 : (64 + 16 * x + 4 * y + z) % 4 = z := by omega
  subst hq
  simp only [qoi_decode, List.length_cons, qoi_decode_go, if_neg h1,
    if_neg h2, if_neg h3, if_pos h4, e1, e2, e3]

lemma decode_luma (d hi lo : Nat) (hd : d < 64) (hhi : hi < 16)
    (hlo : lo < 16) (bs : List Nat) (dpx : Pix) (didx : List Pix) (q : Pix)
    (hq : q = ⟨(dpx.r + 216 + d + hi) % 256, (dpx.g + 224 + d) % 256,
               (dpx.b + 216 + d + lo) % 256, dpx.a⟩) :
    qoi_decode ((128 + d) :: (16 * hi + lo) :: bs) dpx didx =
      q :: qoi_decode bs q (didx.set (qoi_color_hash q) q) := by
  have h1 : ¬(128 + d = 254) := by omega
  have h2 : ¬(128 + d = 255) := by omega
  have h3 : ¬((128 + d) / 64 = 0) := by omega
  have h4 : ¬((128 + d) / 64 = 1) := by omega
  have h5 : (128 + d) / 64 = 2 := by omega
  have e1 : (128 + d) % 64 = d := by omega
  have e2 : (16 * hi + lo) / 16 = hi := by omega
  have e3 : (16 * hi + lo) % 16 = lo := by omega
  subst hq
  simp only [qoi_decode, List.length_cons, qoi_decode_go, if_neg h1,
    if_neg h2, if_neg h3, if_neg h4, if_pos h5, List.getD_cons_zero,
    List.drop_succ_cons, List.drop_zero, e1, e2, e3]
  rw [decode_go_fuel (bs.length + 1) bs bs.length (by omega) (by omega)]

lemma decode_run (v : Nat) (hv : v ≤ 61) (bs : List Nat) (dpx : Pix)
    (didx : List Pix) :
    qoi_decode ((192 + v) :: bs) dpx didx =
      List.replicate (v + 1) dpx
        ++ qoi_decode bs dpx (didx.set (qoi_color_hash dpx) dpx) := by
  have h1 : ¬(192 + v = 254) := by omega
  have h2 : ¬(192 + v = 255) := by omega
  have h3 : ¬((192 + v) / 64 = 0) := by omega
  have h4 : ¬((192 + v) / 64 = 1) := by omega
  have h5 : ¬((192 + v) / 64 = 2) := by omega
  have h6 : (192 + v) % 64 = v := by omega
  simp only [qoi_decode, List.length_cons, qoi_decode_go, if_neg h1,
    if_neg h2, if_neg h3, if_neg h4, if_neg h5, h6]

/-! ### runOps unfolding lemmas -/

lemma runOps_nil : runOps [] = [] := rfl

lemma runOps_run (v : Nat) (hv : v ≤ 61) (bs : List Nat) :
    runOps ((192 + v) :: bs) = (v + 1) :: runOps bs := by
  have h1 : ¬(192 + v = 254) := by omega
  have h2 : ¬(192 + v = 255) := by omega
  have h3 : ¬((192 + v) / 64 = 2) := by omega
  have h4 : (192 + v) / 64 = 3 := by omega
  have h5 : (192 + v) % 64 = v := by omega
  simp only [runOps, List.length_cons, runOps_go, if_neg h1, if_neg h2,
    if_neg h3, if_pos h4, h5]

lemma runOps_low (B : Nat) (hB : B < 128) (bs : List Nat) :
    runOps (B :: bs) = runOps bs := by
  have h1 : ¬(B = 254) := by omega
  have h2 : ¬(B = 255) := by omega
  have h3 : ¬(B / 64 = 2) := by omega
  have h4 : ¬(B / 64 = 3) := by omega
  simp only [runOps, List.length_cons, runOps_go, if_neg h1, if_neg h2,
    if_neg h3, if_neg h4]

lemma runOps_luma (d : Nat) (hd : d < 64) (b2 : Nat) (bs : List Nat) :
    runOps ((128 + d) :: b2 :: bs) = runOps bs := by
  have h1 : ¬(128 + d = 254) := by omega
  have h2 : ¬(128 + d = 255) := by omega
  have h3 : (128 + d) / 64 = 2 := by omega
  simp only [runOps, List.length_cons, runOps_go, if_neg h1, if_neg h2,
    if_pos h3, List.drop_succ_cons, List.drop_zero]
  exact runOps_go_fuel (bs.length + 1) bs bs.length (by omega) (by omega)

lemma runOps_rgb (r g b : Nat) (bs : List Nat) :
    runOps (254 :: r :: g :: b :: bs) = runOps bs := by
  simp only [runOps, List.length_cons]
  rw [runOps_go]
  norm_num [List.drop_succ_cons, List.drop_zero]
  exact runOps_go_fuel (bs.length + 3) bs bs.length (by omega) (by omega)

lemma runOps_rgba (r g b a : Nat) (bs : List Nat) :
    runOps (255 :: r :: g :: b :: a :: bs) = runOps bs := by
  simp only [runOps, List.length_cons]
  rw [runOps_go]
  norm_num [List.drop_succ_cons, List.drop_zero]
  exact runOps_go_fuel (bs.length + 4) bs bs.length (by omega) (by omega)

/-! ### qoi_write_pixel characterization -/

lemma write_pixel_near_cap (enc : qoi_encoder) (px : Pix)
    (hb : qoi_px_near px enc.prev_px enc.lossiness = true)
    (hc : enc.run + 1 = 62) :
    qoi_write_pixel enc px = ({ enc with run := 0 }, [QOI_OP_RUN ||| 61]) := by
  simp only [qoi_write_pixel, hb, if_true, if_pos hc]

lemma write_pixel_near_nocap (enc : qoi_encoder) (px : Pix)
    (hb : qoi_px_near px enc.prev_px enc.lossiness = true)
    (hc : ¬(enc.run + 1 = 62)) :
    qoi_write_pixel enc px = ({ enc with run := enc.run + 1 }, []) := by
  simp only [qoi_write_pixel, hb, if_true, if_neg hc]

lemma write_pixel_flush_split (enc : qoi_encoder) (px : Pix)
    (hb : qoi_px_near px enc.prev_px enc.lossiness = false) :
    qoi_write_pixel enc px =
      ((qoi_write_pixel { enc with run := 0 } px).1,
       qoi_finalize enc ++ (qoi_write_pixel { enc with run := 0 } px).2) := by
  simp only [qoi_write_pixel, qoi_finalize, hb, Bool.false_eq_true, if_false]
  simp only [lt_irrefl, if_false, List.nil_append]
  split_ifs <;> simp

lemma encode_pixels_nil (enc : qoi_encoder) :
    qoi_encode_pixels enc [] = (enc, []) := rfl

lemma encode_pixels_cons (enc : qoi_encoder) (px : Pix) (pxs : List Pix) :
    qoi_encode_pixels enc (px :: pxs) =
      ((qoi_encode_pixels (qoi_write_pixel enc px).1 pxs).1,
       (qoi_write_pixel enc px).2
         ++ (qoi_encode_pixels (qoi_write_pixel enc px).1 pxs).2) := by
  rcases h1 : qoi_write_pixel enc px with ⟨e1, o1⟩
  rcases h2 : qoi_encode_pixels e1 pxs with ⟨e2, o2⟩
  simp [qoi_encode_pixels, h1, h2]


lemma write_pixel_hit (enc : qoi_encoder) (px : Pix)
    (hb : qoi_px_near px enc.prev_px enc.lossiness = false)
    (hrun : enc.run = 0)
    (hhit : enc.index.getD (qoi_color_hash px) zeroPix = px) :
    qoi_write_pixel enc px =
      ({ enc with run := 0, prev_px := px },
       [QOI_OP_INDEX ||| qoi_color_hash px]) := by
  simp only [qoi_write_pixel, hb, Bool.false_eq_true, if_false, hrun,
    lt_irrefl, if_pos hhit, List.nil_append]

lemma write_pixel_miss_diff (enc : qoi_encoder) (px : Pix)
    (hb : qoi_px_near px enc.prev_px enc.lossiness = false)
    (hrun : enc.run = 0)
    (hmiss : ¬(enc.index.getD (qoi_color_hash px) zeroPix = px))
    (hd : (px.a : Int) - (enc.prev_px.a : Int) = 0 ∧
          -2 ≤ (px.r : Int) - (enc.prev_px.r : Int) ∧
          (px.r : Int) - (enc.prev_px.r : Int) ≤ 1 ∧
          -2 ≤ (px.g : Int) - (enc.prev_px.g : Int) ∧
          (px.g : Int) - (enc.prev_px.g : Int) ≤ 1 ∧
          -2 ≤ (px.b : Int) - (enc.prev_px.b : Int) ∧
          (px.b : Int) - (enc.prev_px.b : Int) ≤ 1) :
    qoi_write_pixel enc px =
      ({ enc with run := 0, prev_px := px, index := enc.index.set (qoi_color_hash px) px },
       [QOI_OP_DIFF ||| (((px.r : Int) - (enc.prev_px.r : Int) + 2).toNat <<< 4) |||
        (((px.g : Int) - (enc.prev_px.g : Int) + 2).toNat <<< 2) |||
        ((px.b : Int) - (enc.prev_px.b : Int) + 2).toNat]) := by
  simp only [qoi_write_pixel, hb, Bool.false_eq_true, if_false, hrun,
    lt_irrefl, if_neg hmiss, if_pos hd, List.nil_append]

lemma write_pixel_miss_luma (enc : qoi_encoder) (px : Pix)
    (hb : qoi_px_near px enc.prev_px enc.lossiness = false)
    (hrun : enc.run = 0)
    (hmiss : ¬(enc.index.getD (qoi_color_hash px) zeroPix = px))
    (hnd : ¬((px.a : Int) - (enc.prev_px.a : Int) = 0 ∧
          -2 ≤ (px.r : Int) - (enc.prev_px.r : Int) ∧
          (px.r : Int) - (enc.prev_px.r : Int) ≤ 1 ∧
          -2 ≤ (px.g : Int) - (enc.prev_px.g : Int) ∧
          (px.g : Int) - (enc.prev_px.g : Int) ≤ 1 ∧
          -2 ≤ (px.b : Int) - (enc.prev_px.b : Int) ∧
          (px.b : Int) - (enc.prev_px.b : Int) ≤ 1))
    (hl : (px.a : Int) - (enc.prev_px.a : Int) = 0 ∧
          -32 ≤ (px.g : Int) - (enc.prev_px.g : Int) ∧
          (px.g : Int) - (enc.prev_px.g : Int) ≤ 31 ∧
          -8 ≤ ((px.r : Int) - (enc.prev_px.r : Int)) - ((px.g : Int) - (enc.prev_px.g : Int)) ∧
          ((px.r : Int) - (enc.prev_px.r : Int)) - ((px.g : Int) - (enc.prev_px.g : Int)) ≤ 7 ∧
          -8 ≤ ((px.b : Int) - (enc.prev_px.b : Int)) - ((px.g : Int) - (enc.prev_px.g : Int)) ∧
          ((px.b : Int) - (enc.prev_px.b : Int)) - ((px.g : Int) - (enc.prev_px.g : Int)) ≤ 7) :
    qoi_write_pixel enc px =
      ({ enc with run := 0, prev_px := px, index := enc.index.set (qoi_color_hash px) px },
       [QOI_OP_LUMA ||| ((px.g : Int) - (enc.prev_px.g : Int) + 32).toNat,
        ((((px.r : Int) - (enc.prev_px.r : Int)) - ((px.g : Int) - (enc.prev_px.g : Int)) + 8).toNat <<< 4) |||
        (((px.b : Int) - (enc.prev_px.b : Int)) - ((px.g : Int) - (enc.prev_px.g : Int)) + 8).toNat]) := by
  simp only [qoi_write_pixel, hb, Bool.false_eq_true, if_false, hrun,
    lt_irrefl, if_neg hmiss, if_neg hnd, if_pos hl, List.nil_append]

lemma write_pixel_miss_rgb (enc : qoi_encoder) (px : Pix)
    (hb : qoi_px_near px enc.prev_px enc.lossiness = false)
    (hrun : enc.run = 0)
    (hmiss : ¬(enc.index.getD (qoi_color_hash px) zeroPix = px))
    (hnd : ¬((px.a : Int) - (enc.prev_px.a : Int) = 0 ∧
          -2 ≤ (px.r : Int) - (enc.prev_px.r : Int) ∧
          (px.r : Int) - (enc.prev_px.r : Int) ≤ 1 ∧
          -2 ≤ (px.g : Int) - (enc.prev_px.g : Int) ∧
          (px.g : Int) - (enc.prev_px.g : Int) ≤ 1 ∧
          -2 ≤ (px.b : Int) - (enc.prev_px.b : Int) ∧
          (px.b : Int) - (enc.prev_px.b : Int) ≤ 1))
    (hnl : ¬((px.a : Int) - (enc.prev_px.a : Int) = 0 ∧
          -32 ≤ (px.g : Int) - (enc.prev_px.g : Int) ∧
          (px.g : Int) - (enc.prev_px.g : Int) ≤ 31 ∧
          -8 ≤ ((px.r : Int) - (enc.prev_px.r : Int)) - ((px.g : Int) - (enc.prev_px.g : Int)) ∧
          ((px.r : Int) - (enc.prev_px.r : Int)) - ((px.g : Int) - (enc.prev_px.g : Int)) ≤ 7 ∧
          -8 ≤ ((px.b : Int) - (enc.prev_px.b : Int)) - ((px.g : Int) - (enc.prev_px.g : Int)) ∧
          ((px.b : Int) - (enc.prev_px.b : Int)) - ((px.g : Int) - (enc.prev_px.g : Int)) ≤ 7))
    (ha : px.a = enc.prev_px.a) :
    qoi_write_pixel enc px =
      ({ enc with run := 0, prev_px := px, index := enc.index.set (qoi_color_hash px) px },
       [QOI_OP_RGB, px.r, px.g, px.b]) := by
  simp only [qoi_write_pixel, hb, Bool.false_eq_true, if_false, hrun,
    lt_irrefl, if_neg hmiss, if_neg hnd, if_neg hnl, if_pos ha, List.nil_append]

lemma write_pixel_miss_rgba (enc : qoi_encoder) (px : Pix)
    (hb : qoi_px_near px enc.prev_px enc.lossiness = false)
    (hrun : enc.run = 0)
    (hmiss : ¬(enc.index.getD (qoi_color_hash px) zeroPix = px))
    (hnd : ¬((px.a : Int) - (enc.prev_px.a : Int) = 0 ∧
          -2 ≤ (px.r : Int) - (enc.prev_px.r : Int) ∧
          (px.r : Int) - (enc.prev_px.r : Int) ≤ 1 ∧
          -2 ≤ (px.g : Int) - (enc.prev_px.g : Int) ∧
          (px.g : Int) - (enc.prev_px.g : Int) ≤ 1 ∧
          -2 ≤ (px.b : Int) - (enc.prev_px.b : Int) ∧
          (px.b : Int) - (enc.prev_px.b : Int) ≤ 1))
    (hnl : ¬((px.a : Int) - (enc.prev_px.a : Int) = 0 ∧
          -32 ≤ (px.g : Int) - (enc.prev_px.g : Int) ∧
          (px.g : Int) - (enc.prev_px.g : Int) ≤ 31 ∧
          -8 ≤ ((px.r : Int) - (enc.prev_px.r : Int)) - ((px.g : Int) - (enc.prev_px.g : Int)) ∧
          ((px.r : Int) - (enc.prev_px.r : Int)) - ((px.g : Int) - (enc.prev_px.g : Int)) ≤ 7 ∧
          -8 ≤ ((px.b : Int) - (enc.prev_px.b : Int)) - ((px.g : Int) - (enc.prev_px.g : Int)) ∧
          ((px.b : Int) - (enc.prev_px.b : Int)) - ((px.g : Int) - (enc.prev_px.g : Int)) ≤ 7))
    (hna : ¬(px.a = enc.prev_px.a)) :
    qoi_write_pixel enc px =
      ({ enc with run := 0, prev_px := px, index := enc.index.set (qoi_color_hash px) px },
       [QOI_OP_RGBA, px.r, px.g, px.b, px.a]) := by
  simp only [qoi_write_pixel, hb, Bool.false_eq_true, if_false, hrun,
    lt_irrefl, if_neg hmiss, if_neg hnd, if_neg hnl, if_neg hna, List.nil_append]

lemma index_byte_eq : ∀ s < 64, 0 ||| s = s := by decide

/-! ### Encoder/decoder cache correspondence -/

/-- Correspondence between the encoder cache and the decoder cache: every
slot agrees, except possibly slots still holding the zero pixel on the
encoder side (the decoder may have stored the initial previous pixel
`(0,0,0,255)` at its hash slot during an initial run).  Such a divergent
slot can never be named by an INDEX opcode: only slot 0 can hold the zero
pixel consistently with its hash. -/
def cacheOK (eidx didx : List Pix) : Prop :=
  ∀ i : Nat, i < 64 →
    didx.getD i zeroPix = eidx.getD i zeroPix ∨
      (eidx.getD i zeroPix = zeroPix ∧ i ≠ 0)

/-- Invariant tying an encoder state to the reference decoder state at a
pixel boundary: same previous pixel, run counter below the cap, both
caches 64 slots, `cacheOK`, and the slot of the previous pixel holds
either that pixel or still the zero pixel (away from slot 0). -/
structure DecInv (enc : qoi_encoder) (dpx : Pix) (didx : List Pix) : Prop where
  prev_eq : dpx = enc.prev_px
  run_le : enc.run ≤ 61
  elen : enc.index.length = 64
  dlen : didx.length = 64
  agree : cacheOK enc.index didx
  prevslot : enc.index.getD (qoi_color_hash enc.prev_px) zeroPix = enc.prev_px ∨
      (enc.index.getD (qoi_color_hash enc.prev_px) zeroPix = zeroPix ∧
       qoi_color_hash enc.prev_px ≠ 0)

lemma agree_get (eidx didx : List Pix) (px : Pix) (h : cacheOK eidx didx)
    (he : eidx.getD (qoi_color_hash px) zeroPix = px) :
    didx.getD (qoi_color_hash px) zeroPix = px := by
  rcases h (qoi_color_hash px) (hash_lt px) with h1 | ⟨h2, h3⟩
  · rw [h1, he]
  · exfalso
    apply h3
    have hp : px = zeroPix := by rw [← he, h2]
    rw [hp, hash_zeroPix]

lemma cacheOK_set_both (eidx didx : List Pix) (px : Pix) (h : cacheOK eidx didx)
    (helen : eidx.length = 64) (hdlen : didx.length = 64) :
    cacheOK (eidx.set (qoi_color_hash px) px)
      (didx.set (qoi_color_hash px) px) := by
  intro i hi
  by_cases hc : qoi_color_hash px = i
  · subst hc
    left
    rw [getD_set_self _ _ _ _ (by rw [hdlen]; exact hash_lt px),
        getD_set_self _ _ _ _ (by rw [helen]; exact hash_lt px)]
  · rw [getD_set_other _ _ _ _ _ hc, getD_set_other _ _ _ _ _ hc]
    exact h i hi

lemma cacheOK_set_decoder (eidx didx : List Pix) (p : Pix) (h : cacheOK eidx didx)
    (hdlen : didx.length = 64)
    (hslot : eidx.getD (qoi_color_hash p) zeroPix = p ∨
             (eidx.getD (qoi_color_hash p) zeroPix = zeroPix ∧
              qoi_color_hash p ≠ 0)) :
    cacheOK eidx (didx.set (qoi_color_hash p) p) := by
  intro i hi
  by_cases hc : qoi_color_hash p = i
  · subst hc
    rw [getD_set_self _ _ _ _ (by rw [hdlen]; exact hash_lt p)]
    rcases hslot with h1 | ⟨h2, h3⟩
    · left
      rw [h1]
    · right
      exact ⟨h2, h3⟩
  · rw [getD_set_other _ _ _ _ _ hc]
    exact h i hi

/-- One non-near pixel with no pending run: the emitted opcode decodes to
exactly `px` and re-establishes the invariant, the decoder cache gaining
`px` at its hash slot. -/
lemma write_pixel_op_decode (enc : qoi_encoder) (px dpx : Pix) (didx1 : List Pix)
    (hb : qoi_px_near px enc.prev_px enc.lossiness = false)
    (hrun : enc.run = 0)
    (hprev : dpx = enc.prev_px)
    (helen : enc.index.length = 64)
    (hdlen : didx1.length = 64)
    (hagree : cacheOK enc.index didx1)
    (hv : px.valid) :
    (qoi_write_pixel enc px).1.run = 0 ∧
    DecInv (qoi_write_pixel enc px).1 px (didx1.set (qoi_color_hash px) px) ∧
    ∀ rest, qoi_decode ((qoi_write_pixel enc px).2 ++ rest) dpx didx1 =
      px :: qoi_decode rest px (didx1.set (qoi_color_hash px) px) := by
  subst hprev
  obtain ⟨hvr, hvg, hvb, hva⟩ := hv
  by_cases hhit : enc.index.getD (qoi_color_hash px) zeroPix = px
  · -- INDEX opcode
    rw [write_pixel_hit enc px hb hrun hhit]
    refine ⟨rfl, ?_, ?_⟩
    · exact { prev_eq := rfl
              run_le := Nat.zero_le 61
              elen := helen
              dlen := by rw [List.length_set, hdlen]
              agree := cacheOK_set_decoder _ _ _ hagree hdlen (Or.inl hhit)
              prevslot := Or.inl hhit }
    · intro rest
      have hzl : QOI_OP_INDEX ||| qoi_color_hash px = qoi_color_hash px := by
        simp only [QOI_OP_INDEX]
        exact index_byte_eq _ (hash_lt px)
      have hq := agree_get enc.index didx1 px hagree hhit
      simp only [hzl, List.singleton_append]
      rw [decode_index (qoi_color_hash px) (hash_lt px) rest enc.prev_px didx1, hq]
  · by_cases hd : (px.a : Int) - (enc.prev_px.a : Int) = 0 ∧
        -2 ≤ (px.r : Int) - (enc.prev_px.r : Int) ∧
        (px.r : Int) - (enc.prev_px.r : Int) ≤ 1 ∧
        -2 ≤ (px.g : Int) - (enc.prev_px.g : Int) ∧
        (px.g : Int) - (enc.prev_px.g : Int) ≤ 1 ∧
        -2 ≤ (px.b : Int) - (enc.prev_px.b : Int) ∧
        (px.b : Int) - (enc.prev_px.b : Int) ≤ 1
    · -- DIFF opcode
      rw [write_pixel_miss_diff enc px hb hrun hhit hd]
      obtain ⟨hda, hr1, hr2, hg1, hg2, hb1, hb2⟩ := hd
      refine ⟨rfl, ?_, ?_⟩
      · exact { prev_eq := rfl
                run_le := Nat.zero_le 61
                elen := by rw [List.length_set, helen]
                dlen := by rw [List.length_set, hdlen]
                agree := cacheOK_set_both _ _ _ hagree helen hdlen
                prevslot := Or.inl (getD_set_self _ _ _ _
                  (by rw [helen]; exact hash_lt px)) }
      · intro rest
        have hx : ((px.r : Int) - (enc.prev_px.r : Int) + 2).toNat < 4 := by omega
        have hy : ((px.g : Int) - (enc.prev_px.g : Int) + 2).toNat < 4 := by omega
        have hz : ((px.b : Int) - (enc.prev_px.b : Int) + 2).toNat < 4 := by omega
        have hbyte : QOI_OP_DIFF |||
            (((px.r : Int) - (enc.prev_px.r : Int) + 2).toNat <<< 4) |||
            (((px.g : Int) - (enc.prev_px.g : Int) + 2).toNat <<< 2) |||
            ((px.b : Int) - (enc.prev_px.b : Int) + 2).toNat =
            64 + 16 * ((px.r : Int) - (enc.prev_px.r : Int) + 2).toNat +
            4 * ((px.g : Int) - (enc.prev_px.g : Int) + 2).toNat +
            ((px.b : Int) - (enc.prev_px.b : Int) + 2).toNat := by
          simp only [QOI_OP_DIFF]
          exact diff_byte_eq _ hx _ hy _ hz
        simp only [hbyte, List.singleton_append]
        rw [decode_diff _ _ _ hx hy hz rest enc.prev_px didx1 px (by
          rw [pix_eq_iff]
          refine ⟨?_, ?_, ?_, ?_⟩ <;> simp only [] <;> omega)]
    · by_cases hl : (px.a : Int) - (enc.prev_px.a : Int) = 0 ∧
          -32 ≤ (px.g : Int) - (enc.prev_px.g : Int) ∧
          (px.g : Int) - (enc.prev_px.g : Int) ≤ 31 ∧
          -8 ≤ ((px.r : Int) - (enc.prev_px.r : Int)) - ((px.g : Int) - (enc.prev_px.g : Int)) ∧
          ((px.r : Int) - (enc.prev_px.r : Int)) - ((px.g : Int) - (enc.prev_px.g : Int)) ≤ 7 ∧
          -8 ≤ ((px.b : Int) - (enc.prev_px.b : Int)) - ((px.g : Int) - (enc.prev_px.g : Int)) ∧
          ((px.b : Int) - (enc.prev_px.b : Int)) - ((px.g : Int) - (enc.prev_px.g : Int)) ≤ 7
      · -- LUMA opcode
        rw [write_pixel_miss_luma enc px hb hrun hhit hd hl]
        obtain ⟨hda, hg1, hg2, hrg1, hrg2, hbg1, hbg2⟩ := hl
        refine ⟨rfl, ?_, ?_⟩
        · exact { prev_eq := rfl
                  run_le := Nat.zero_le 61
                  elen := by rw [List.length_set, helen]
                  dlen := by rw [List.length_set, hdlen]
                  agree := cacheOK_set_both _ _ _ hagree helen hdlen
                  prevslot := Or.inl (getD_set_self _ _ _ _
                    (by rw [helen]; exact hash_lt px)) }
        · intro rest
          have hdd : ((px.g : Int) - (enc.prev_px.g : Int) + 32).toNat < 64 := by omega
          have hhi : (((px.r : Int) - (enc.prev_px.r : Int)) -
              ((px.g : Int) - (enc.prev_px.g : Int)) + 8).toNat < 16 := by omega
          have hlo : (((px.b : Int) - (enc.prev_px.b : Int)) -
              ((px.g : Int) - (enc.prev_px.g : Int)) + 8).toNat < 16 := by omega
          have hbyte1 : QOI_OP_LUMA ||| ((px.g : Int) - (enc.prev_px.g : Int) + 32).toNat =
              128 + ((px.g : Int) - (enc.prev_px.g : Int) + 32).toNat := by
            simp only [QOI_OP_LUMA]
            exact luma1_byte_eq _ hdd
          have hbyte2 : ((((px.r : Int) - (enc.prev_px.r : Int)) -
                ((px.g : Int) - (enc.prev_px.g : Int)) + 8).toNat <<< 4) |||
              (((px.b : Int) - (enc.prev_px.b : Int)) -
                ((px.g : Int) - (enc.prev_px.g : Int)) + 8).toNat =
              16 * (((px.r : Int) - (enc.prev_px.r : Int)) -
                ((px.g : Int) - (enc.prev_px.g : Int)) + 8).toNat +
              (((px.b : Int) - (enc.prev_px.b : Int)) -
                ((px.g : Int) - (enc.prev_px.g : Int)) + 8).toNat :=
            shl4_lor_eq _ hhi _ hlo
          simp only [hbyte1, hbyte2, List.cons_append, List.nil_append]
          rw [decode_luma _ _ _ hdd hhi hlo rest enc.prev_px didx1 px (by
            rw [pix_eq_iff]
            refine ⟨?_, ?_, ?_, ?_⟩ <;> simp only [] <;> omega)]
      · by_cases ha : px.a = enc.prev_px.a
        · -- RGB opcode
          rw [write_pixel_miss_rgb enc px hb hrun hhit hd hl ha]
          refine ⟨rfl, ?_, ?_⟩
          · exact { prev_eq := rfl
                    run_le := Nat.zero_le 61
                    elen := by rw [List.length_set, helen]
                    dlen := by rw [List.length_set, hdlen]
                    agree := cacheOK_set_both _ _ _ hagree helen hdlen
                    prevslot := Or.inl (getD_set_self _ _ _ _
                      (by rw [helen]; exact hash_lt px)) }
          · intro rest
            have h254 : QOI_OP_RGB = 254 := rfl
            simp only [h254, List.cons_append, List.nil_append]
            rw [decode_rgb px.r px.g px.b rest enc.prev_px didx1 px (by
              rw [pix_eq_iff]
              exact ⟨rfl, rfl, rfl, ha⟩)]
        · -- RGBA opcode
          rw [write_pixel_miss_rgba enc px hb hrun hhit hd hl ha]
          refine ⟨rfl, ?_, ?_⟩
          · exact { prev_eq := rfl
                    run_le := Nat.zero_le 61
                    elen := by rw [List.length_set, helen]
                    dlen := by rw [List.length_set, hdlen]
                    agree := cacheOK_set_both _ _ _ hagree helen hdlen
                    prevslot := Or.inl (getD_set_self _ _ _ _
                      (by rw [helen]; exact hash_lt px)) }
          · intro rest
            have h255 : QOI_OP_RGBA = 255 := rfl
            simp only [h255, List.cons_append, List.nil_append]
            rw [decode_rgba px.r px.g px.b px.a rest enc.prev_px didx1 px (by
              rw [pix_eq_iff]
              exact ⟨rfl, rfl, rfl, rfl⟩)]

lemma decode_nil (px : Pix) (idx : List Pix) : qoi_decode [] px idx = [] :=
  rfl

lemma write_pixel_lossiness (enc : qoi_encoder) (px : Pix) :
    (qoi_write_pixel enc px).1.lossiness = enc.lossiness := by
  simp only [qoi_write_pixel]
  split_ifs <;> rfl

lemma write_pixel_prev (enc : qoi_encoder) (px : Pix) :
    (qoi_write_pixel enc px).1.prev_px =
      (if qoi_px_near px enc.prev_px enc.lossiness then enc.prev_px else px) := by
  simp only [qoi_write_pixel]
  split_ifs <;> rfl

/-- Decoding the final-run flush yields the pending pixels. -/
lemma decode_finalize (enc : qoi_encoder) (dpx : Pix) (didx : List Pix)
    (hrle : enc.run ≤ 61) :
    qoi_decode (qoi_finalize enc) dpx didx = List.replicate enc.run dpx := by
  unfold qoi_finalize
  by_cases hr : 0 < enc.run
  · rw [if_pos hr]
    have hby : QOI_OP_RUN ||| (enc.run - 1) = 192 + (enc.run - 1) := by
      simp only [QOI_OP_RUN]
      exact run_byte_eq _ (by omega)
    rw [hby, decode_run (enc.run - 1) (by omega) [] dpx didx, decode_nil,
      List.append_nil, show enc.run - 1 + 1 = enc.run from by omega]
  · rw [if_neg hr, decode_nil, show enc.run = 0 from by omega,
      List.replicate_zero]

/-- One non-near pixel from an arbitrary invariant state: the flush plus
the opcode decode to the pending run followed by `px`. -/
lemma write_pixel_decode (enc : qoi_encoder) (px dpx : Pix) (didx : List Pix)
    (hb : qoi_px_near px enc.prev_px enc.lossiness = false)
    (inv : DecInv enc dpx didx) (hv : px.valid) :
    ∃ didx2,
      (qoi_write_pixel enc px).1.run = 0 ∧
      DecInv (qoi_write_pixel enc px).1 px didx2 ∧
      ∀ rest, qoi_decode ((qoi_write_pixel enc px).2 ++ rest) dpx didx =
        List.replicate enc.run dpx ++ px :: qoi_decode rest px didx2 := by
  by_cases hr : 0 < enc.run
  · -- pending run: RUN flush first
    have hb0 : qoi_px_near px ({ enc with run := 0 } : qoi_encoder).prev_px
        ({ enc with run := 0 } : qoi_encoder).lossiness = false := hb
    have hslot : enc.index.getD (qoi_color_hash dpx) zeroPix = dpx ∨
        (enc.index.getD (qoi_color_hash dpx) zeroPix = zeroPix ∧
         qoi_color_hash dpx ≠ 0) := by
      rw [inv.prev_eq]
      exact inv.prevslot
    obtain ⟨hrun0, hinv2, hdec⟩ :=
      write_pixel_op_decode ({ enc with run := 0 }) px dpx
        (didx.set (qoi_color_hash dpx) dpx) hb0 rfl inv.prev_eq inv.elen
        (by rw [List.length_set]; exact inv.dlen)
        (cacheOK_set_decoder _ _ _ inv.agree inv.dlen hslot) hv
    refine ⟨(didx.set (qoi_color_hash dpx) dpx).set (qoi_color_hash px) px,
      ?_, ?_, ?_⟩
    · rw [write_pixel_flush_split enc px hb]
      exact hrun0
    · rw [write_pixel_flush_split enc px hb]
      exact hinv2
    · intro rest
      rw [write_pixel_flush_split enc px hb]
      have hfl : qoi_finalize enc = [192 + (enc.run - 1)] := by
        unfold qoi_finalize
        rw [if_pos hr]
        simp only [QOI_OP_RUN]
        rw [run_byte_eq _ (by have := inv.run_le; omega)]
      simp only [hfl, List.cons_append, List.nil_append, List.append_assoc]
      rw [decode_run (enc.run - 1) (by have := inv.run_le; omega) _ dpx didx,
        hdec rest, show enc.run - 1 + 1 = enc.run from by omega]
  · -- no pending run
    have hrun0 : enc.run = 0 := by omega
    obtain ⟨hr0, hinv2, hdec⟩ :=
      write_pixel_op_decode enc px dpx didx hb hrun0 inv.prev_eq inv.elen
        inv.dlen inv.agree hv
    refine ⟨didx.set (qoi_color_hash px) px, hr0, hinv2, ?_⟩
    intro rest
    rw [hdec rest, hrun0, List.replicate_zero, List.nil_append]

/-- Round-trip induction: from any invariant state, decoding the remaining
opcode stream plus the final flush yields the pending run pixels followed
by the remaining input pixels. -/
lemma decode_encode_aux (pxs : List Pix) :
    ∀ (enc : qoi_encoder) (dpx : Pix) (didx : List Pix),
      enc.lossiness = 0 → DecInv enc dpx didx → (∀ p ∈ pxs, p.valid) →
      qoi_decode ((qoi_encode_pixels enc pxs).2
          ++ qoi_finalize (qoi_encode_pixels enc pxs).1) dpx didx
        = List.replicate enc.run dpx ++ pxs := by
  induction pxs with
  | nil =>
    intro enc dpx didx _ inv _
    rw [encode_pixels_nil]
    simp only [List.nil_append, List.append_nil]
    exact decode_finalize enc dpx didx inv.run_le
  | cons px pxs ih =>
    intro enc dpx didx hloss inv hv
    have hvp : px.valid := hv px (by simp)
    have hvs : ∀ p ∈ pxs, p.valid := fun p hp => hv p (by simp [hp])
    rw [encode_pixels_cons]
    by_cases hb : qoi_px_near px enc.prev_px enc.lossiness = true
    · have hpx : px = enc.prev_px := by
        rw [hloss] at hb
        exact (near_zero_iff px enc.prev_px).mp hb
      have hpd : px = dpx := by rw [hpx, inv.prev_eq]
      by_cases hc : enc.run + 1 = 62
      · rw [write_pixel_near_cap enc px hb hc]
        have h253 : QOI_OP_RUN ||| 61 = 192 + 61 := by decide
        simp only [h253, List.cons_append, List.nil_append]
        rw [decode_run 61 (by omega) _ dpx didx]
        have inv' : DecInv { enc with run := 0 } dpx
            (didx.set (qoi_color_hash dpx) dpx) :=
          { prev_eq := inv.prev_eq
            run_le := Nat.zero_le 61
            elen := inv.elen
            dlen := by rw [List.length_set]; exact inv.dlen
            agree := cacheOK_set_decoder _ _ _ inv.agree inv.dlen
              (by rw [inv.prev_eq]; exact inv.prevslot)
            prevslot := inv.prevslot }
        rw [ih { enc with run := 0 } dpx _ hloss inv' hvs]
        simp only [List.replicate_zero, List.nil_append]
        rw [hpd, show enc.run = 61 from by omega, replicate_append_cons]
      · rw [write_pixel_near_nocap enc px hb hc]
        simp only [List.nil_append]
        have inv' : DecInv { enc with run := enc.run + 1 } dpx didx :=
          { prev_eq := inv.prev_eq
            run_le := by show enc.run + 1 ≤ 61; have h1 := inv.run_le; omega
            elen := inv.elen
            dlen := inv.dlen
            agree := inv.agree
            prevslot := inv.prevslot }
        rw [ih { enc with run := enc.run + 1 } dpx didx hloss inv' hvs]
        rw [hpd, ← replicate_append_cons]
    · have hb' : qoi_px_near px enc.prev_px enc.lossiness = false := by
        revert hb
        cases qoi_px_near px enc.prev_px enc.lossiness <;> simp
      obtain ⟨didx2, hrun0, hinv2, hdec⟩ :=
        write_pixel_decode enc px dpx didx hb' inv hvp
      rw [List.append_assoc, hdec, ih (qoi_write_pixel enc px).1 px didx2
        (by rw [write_pixel_lossiness]; exact hloss) hinv2 hvs, hrun0]
      simp only [List.replicate_zero, List.nil_append]

/-- Claim C1: for every valid pixel sequence encoded at threshold 0,
decoding the opcode stream produced by initialization, per-pixel encoding and
finalize with the reference QOI decoder yields the original sequence. -/
theorem C1_lossless_roundtrip (pxs : List Pix) (hv : ∀ p ∈ pxs, p.valid) :
    qoi_decode ((qoi_encode_pixels (qoi_encoder_init 0) pxs).2
        ++ qoi_finalize (qoi_encode_pixels (qoi_encoder_init 0) pxs).1)
      ⟨0, 0, 0, 255⟩ (List.replicate 64 zeroPix) = pxs := by
  have inv : DecInv (qoi_encoder_init 0) ⟨0, 0, 0, 255⟩
      (List.replicate 64 zeroPix) :=
    { prev_eq := rfl
      run_le := Nat.zero_le 61
      elen := by decide
      dlen := by decide
      agree := fun i _ => Or.inl rfl
      prevslot := by decide }
  have := decode_encode_aux pxs (qoi_encoder_init 0) ⟨0, 0, 0, 255⟩
    (List.replicate 64 zeroPix) rfl inv hv
  simpa using this

/-! ### Run-counter and runOps stream lemmas -/

lemma bool_eq_false {b : Bool} (h : ¬(b = true)) : b = false := by
  cases b with
  | false => rfl
  | true => exact absurd rfl h

lemma near_neg (t : Int) (ht : t < 0) (a b : Pix) : qoi_px_near a b t = false := by
  apply bool_eq_false
  intro hq
  rw [near_iff] at hq
  obtain ⟨h1, -, -, -⟩ := hq
  have := abs_nonneg ((a.r : Int) - (b.r : Int))
  omega

lemma write_pixel_run_nonnear (enc : qoi_encoder) (px : Pix)
    (hb : qoi_px_near px enc.prev_px enc.lossiness = false) :
    (qoi_write_pixel enc px).1.run = 0 := by
  simp only [qoi_write_pixel, hb, Bool.false_eq_true, if_false]
  split_ifs <;> rfl

lemma write_pixel_run_le (enc : qoi_encoder) (px : Pix) (h : enc.run ≤ 61) :
    (qoi_write_pixel enc px).1.run ≤ 61 := by
  by_cases hb : qoi_px_near px enc.prev_px enc.lossiness = true
  · by_cases hc : enc.run + 1 = 62
    · rw [write_pixel_near_cap enc px hb hc]
      exact Nat.zero_le 61
    · rw [write_pixel_near_nocap enc px hb hc]
      show enc.run + 1 ≤ 61
      omega
  · rw [write_pixel_run_nonnear enc px (bool_eq_false hb)]
    exact Nat.zero_le 61

lemma qoi_finalize_pos (enc : qoi_encoder) (hr : 0 < enc.run) :
    qoi_finalize enc = [QOI_OP_RUN ||| (enc.run - 1)] := by
  unfold qoi_finalize
  rw [if_pos hr]

lemma write_pixel_flush_head (enc : qoi_encoder) (px : Pix)
    (hb : qoi_px_near px enc.prev_px enc.lossiness = false)
    (hr : 0 < enc.run) :
    ∃ rest, (qoi_write_pixel enc px).2 =
      (QOI_OP_RUN ||| (enc.run - 1)) :: rest := by
  rw [write_pixel_flush_split enc px hb]
  refine ⟨(qoi_write_pixel { enc with run := 0 } px).2, ?_⟩
  show qoi_finalize enc ++ _ = _
  rw [qoi_finalize_pos enc hr]
  rfl

lemma runOps_op_skip (enc : qoi_encoder) (px : Pix)
    (hb : qoi_px_near px enc.prev_px enc.lossiness = false)
    (hr0 : enc.run = 0) (rest : List Nat) :
    runOps ((qoi_write_pixel enc px).2 ++ rest) = runOps rest := by
  by_cases hhit : enc.index.getD (qoi_color_hash px) zeroPix = px
  · rw [write_pixel_hit enc px hb hr0 hhit]
    have hzl : QOI_OP_INDEX ||| qoi_color_hash px = qoi_color_hash px := by
      simp only [QOI_OP_INDEX]
      exact index_byte_eq _ (hash_lt px)
    simp only [hzl, List.singleton_append]
    exact runOps_low _ (by have := hash_lt px; omega) rest
  · by_cases hd : (px.a : Int) - (enc.prev_px.a : Int) = 0 ∧
        -2 ≤ (px.r : Int) - (enc.prev_px.r : Int) ∧
        (px.r : Int) - (enc.prev_px.r : Int) ≤ 1 ∧
        -2 ≤ (px.g : Int) - (enc.prev_px.g : Int) ∧
        (px.g : Int) - (enc.prev_px.g : Int) ≤ 1 ∧
        -2 ≤ (px.b : Int) - (enc.prev_px.b : Int) ∧
        (px.b : Int) - (enc.prev_px.b : Int) ≤ 1
    · rw [write_pixel_miss_diff enc px hb hr0 hhit hd]
      obtain ⟨hda, hr1, hr2, hg1, hg2, hb1, hb2⟩ := hd
      have hx : ((px.r : Int) - (enc.prev_px.r : Int) + 2).toNat < 4 := by omega
      have hy : ((px.g : Int) - (enc.prev_px.g : Int) + 2).toNat < 4 := by omega
      have hz : ((px.b : Int) - (enc.prev_px.b : Int) + 2).toNat < 4 := by omega
      have hbyte : QOI_OP_DIFF |||
          (((px.r : Int) - (enc.prev_px.r : Int) + 2).toNat <<< 4) |||
          (((px.g : Int) - (enc.prev_px.g : Int) + 2).toNat <<< 2) |||
          ((px.b : Int) - (enc.prev_px.b : Int) + 2).toNat =
          64 + 16 * ((px.r : Int) - (enc.prev_px.r : Int) + 2).toNat +
          4 * ((px.g : Int) - (enc.prev_px.g : Int) + 2).toNat +
          ((px.b : Int) - (enc.prev_px.b : Int) + 2).toNat := by
        simp only [QOI_OP_DIFF]
        exact diff_byte_eq _ hx _ hy _ hz
      simp only [hbyte, List.singleton_append]
      exact runOps_low _ (by omega) rest
    · by_cases hl : (px.a : Int) - (enc.prev_px.a : Int) = 0 ∧
          -32 ≤ (px.g : Int) - (enc.prev_px.g : Int) ∧
          (px.g : Int) - (enc.prev_px.g : Int) ≤ 31 ∧
          -8 ≤ ((px.r : Int) - (enc.prev_px.r : Int)) - ((px.g : Int) - (enc.prev_px.g : Int)) ∧
          ((px.r : Int) - (enc.prev_px.r : Int)) - ((px.g : Int) - (enc.prev_px.g : Int)) ≤ 7 ∧
          -8 ≤ ((px.b : Int) - (enc.prev_px.b : Int)) - ((px.g : Int) - (enc.prev_px.g : Int)) ∧
          ((px.b : Int) - (enc.prev_px.b : Int)) - ((px.g : Int) - (enc.prev_px.g : Int)) ≤ 7
      · rw [write_pixel_miss_luma enc px hb hr0 hhit hd hl]
        obtain ⟨hda, hg1, hg2, hrg1, hrg2, hbg1, hbg2⟩ := hl
        have hdd : ((px.g : Int) - (enc.prev_px.g : Int) + 32).toNat < 64 := by
          omega
        have hbyte1 : QOI_OP_LUMA |||
            ((px.g : Int) - (enc.prev_px.g : Int) + 32).toNat =
            128 + ((px.g : Int) - (enc.prev_px.g : Int) + 32).toNat := by
          simp only [QOI_OP_LUMA]
          exact luma1_byte_eq _ hdd
        simp only [hbyte1, List.cons_append, List.nil_append]
        exact runOps_luma _ hdd _ rest
      · by_cases ha : px.a = enc.prev_px.a
        · rw [write_pixel_miss_rgb enc px hb hr0 hhit hd hl ha]
          have h254 : QOI_OP_RGB = 254 := rfl
          simp only [h254, List.cons_append, List.nil_append]
          exact runOps_rgb _ _ _ rest
        · rw [write_pixel_miss_rgba enc px hb hr0 hhit hd hl ha]
          have h255 : QOI_OP_RGBA = 255 := rfl
          simp only [h255, List.cons_append, List.nil_append]
          exact runOps_rgba _ _ _ _ rest

lemma runOps_write_pixel (enc : qoi_encoder) (px : Pix) (h : enc.run ≤ 61)
    (rest : List Nat) :
    runOps ((qoi_write_pixel enc px).2 ++ rest) =
      (if qoi_px_near px enc.prev_px enc.lossiness = true then
        (if enc.run + 1 = 62 then [62] else [])
      else (if 0 < enc.run then [enc.run] else [])) ++ runOps rest := by
  by_cases hb : qoi_px_near px enc.prev_px enc.lossiness = true
  · rw [if_pos hb]
    by_cases hc : enc.run + 1 = 62
    · rw [write_pixel_near_cap enc px hb hc, if_pos hc]
      have h253 : QOI_OP_RUN ||| 61 = 192 + 61 := by decide
      simp only [h253, List.singleton_append]
      rw [runOps_run 61 (by omega) rest]
    · rw [write_pixel_near_nocap enc px hb hc, if_neg hc]
      simp only [List.nil_append]
  · have hb' := bool_eq_false hb
    rw [if_neg hb]
    by_cases hr : 0 < enc.run
    · rw [if_pos hr, write_pixel_flush_split enc px hb']
      rw [qoi_finalize_pos enc hr]
      have hby : QOI_OP_RUN ||| (enc.run - 1) = 192 + (enc.run - 1) := by
        simp only [QOI_OP_RUN]
        exact run_byte_eq _ (by omega)
      simp only [hby, List.cons_append, List.nil_append, List.append_assoc]
      rw [runOps_run (enc.run - 1) (by omega) _,
        runOps_op_skip { enc with run := 0 } px hb' rfl rest,
        show enc.run - 1 + 1 = enc.run from by omega]
    · rw [if_neg hr]
      simp only [List.nil_append]
      exact runOps_op_skip enc px hb' (by omega) rest

lemma encode_runOps (pxs : List Pix) : ∀ enc : qoi_encoder, enc.run ≤ 61 →
    (qoi_encode_pixels enc pxs).1.run ≤ 61 ∧
    ∀ v ∈ runOps ((qoi_encode_pixels enc pxs).2
        ++ qoi_finalize (qoi_encode_pixels enc pxs).1), v ≤ 62 := by
  induction pxs with
  | nil =>
    intro enc h
    rw [encode_pixels_nil]
    refine ⟨h, ?_⟩
    simp only [List.nil_append]
    by_cases hr : 0 < enc.run
    · rw [qoi_finalize_pos enc hr]
      have hby : QOI_OP_RUN ||| (enc.run - 1) = 192 + (enc.run - 1) := by
        simp only [QOI_OP_RUN]
        exact run_byte_eq _ (by omega)
      rw [hby, show ([192 + (enc.run - 1)] : List Nat) =
        (192 + (enc.run - 1)) :: [] from rfl,
        runOps_run (enc.run - 1) (by omega) [], runOps_nil]
      intro v hv
      simp only [List.mem_singleton] at hv
      omega
    · have hfl : qoi_finalize enc = [] := by
        unfold qoi_finalize
        rw [if_neg hr]
      rw [hfl, runOps_nil]
      intro v hv
      simp at hv
  | cons px pxs ih =>
    intro enc h
    rw [encode_pixels_cons]
    have h1 : (qoi_write_pixel enc px).1.run ≤ 61 := write_pixel_run_le enc px h
    obtain ⟨ih1, ih2⟩ := ih (qoi_write_pixel enc px).1 h1
    refine ⟨ih1, ?_⟩
    simp only [List.append_assoc]
    rw [runOps_write_pixel enc px h]
    intro v hv
    rw [List.mem_append] at hv
    rcases hv with hv | hv
    · split_ifs at hv <;> simp at hv <;> omega
    · exact ih2 v hv

lemma encode_neg (t : Int) (ht : t < 0) (pxs : List Pix) :
    ∀ enc : qoi_encoder, enc.lossiness = t → enc.run = 0 →
      (qoi_encode_pixels enc pxs).1.run = 0 ∧
      runOps ((qoi_encode_pixels enc pxs).2
        ++ qoi_finalize (qoi_encode_pixels enc pxs).1) = [] := by
  induction pxs with
  | nil =>
    intro enc hl hr
    rw [encode_pixels_nil]
    refine ⟨hr, ?_⟩
    have hfl : qoi_finalize enc = [] := by
      unfold qoi_finalize
      rw [if_neg (by omega)]
    simp only [List.nil_append, hfl, runOps_nil]
  | cons px pxs ih =>
    intro enc hl hr
    have hb : qoi_px_near px enc.prev_px enc.lossiness = false := by
      rw [hl]
      exact near_neg t ht px enc.prev_px
    rw [encode_pixels_cons]
    obtain ⟨ih1, ih2⟩ := ih (qoi_write_pixel enc px).1
      (by rw [write_pixel_lossiness]; exact hl)
      (write_pixel_run_nonnear enc px hb)
    refine ⟨ih1, ?_⟩
    simp only [List.append_assoc]
    rw [runOps_op_skip enc px hb hr]
    exact ih2

/-! ### Run anchoring, absorption counting, constant runs -/

lemma encode_near_anchor (pxs : List Pix) : ∀ enc : qoi_encoder,
    (∀ p ∈ pxs, qoi_px_near p enc.prev_px enc.lossiness = true) →
    (qoi_encode_pixels enc pxs).1.prev_px = enc.prev_px := by
  induction pxs with
  | nil =>
    intro enc _
    rw [encode_pixels_nil]
  | cons px pxs ih =>
    intro enc h
    have h1 : (qoi_write_pixel enc px).1.prev_px = enc.prev_px := by
      rw [write_pixel_prev, if_pos (h px (by simp))]
    have h2 : (qoi_write_pixel enc px).1.lossiness = enc.lossiness :=
      write_pixel_lossiness enc px
    have h3 : ∀ p ∈ pxs, qoi_px_near p (qoi_write_pixel enc px).1.prev_px
        (qoi_write_pixel enc px).1.lossiness = true := by
      intro p hp
      rw [h1, h2]
      exact h p (by simp [hp])
    calc (qoi_encode_pixels enc (px :: pxs)).1.prev_px
        = (qoi_encode_pixels (qoi_write_pixel enc px).1 pxs).1.prev_px := by
          rw [encode_pixels_cons]
      _ = (qoi_write_pixel enc px).1.prev_px := ih _ h3
      _ = enc.prev_px := h1

lemma runAbsorbed_eq (pxs : List Pix) : ∀ enc : qoi_encoder,
    runAbsorbed enc pxs = absorbCount enc.prev_px enc.lossiness pxs := by
  induction pxs with
  | nil => intro enc; rfl
  | cons px pxs ih =>
    intro enc
    simp only [runAbsorbed, absorbCount]
    rw [ih (qoi_write_pixel enc px).1, write_pixel_prev,
      write_pixel_lossiness]
    by_cases hb : qoi_px_near px enc.prev_px enc.lossiness = true
    · simp only [if_pos hb]
    · simp only [bool_eq_false hb, Bool.false_eq_true, if_false]
      exact Nat.zero_add _

lemma absorb_mono_zero (pxs : List Pix) : ∀ (p0 pt : Pix) (t : Int),
    qoi_px_near p0 pt t = true →
    absorbCount p0 0 pxs ≤ absorbCount pt t pxs := by
  induction pxs with
  | nil =>
    intro p0 pt t _
    exact Nat.le_refl 0
  | cons px pxs ih =>
    intro p0 pt t hlink
    simp only [absorbCount]
    by_cases h0 : qoi_px_near px p0 0 = true
    · have hpx : px = p0 := (near_zero_iff px p0).mp h0
      have ht' : qoi_px_near px pt t = true := by
        rw [hpx]
        exact hlink
      rw [if_pos h0, if_pos ht']
      have := ih p0 pt t hlink
      omega
    · rw [if_neg h0]
      by_cases ht' : qoi_px_near px pt t = true
      · rw [if_pos ht']
        have := ih px pt t ht'
        omega
      · rw [if_neg ht']
        have ht0 : 0 ≤ t := by
          rw [near_iff] at hlink
          obtain ⟨h1, -, -, -⟩ := hlink
          have := abs_nonneg ((p0.r : Int) - (pt.r : Int))
          omega
        exact ih px px t (near_self px t ht0)

lemma encode_replicate_near (p : Pix) (n : Nat) : ∀ enc : qoi_encoder,
    qoi_px_near p enc.prev_px enc.lossiness = true → enc.run ≤ 61 →
    qoi_encode_pixels enc (List.replicate n p) =
      ({ enc with run := (enc.run + n) % 62 },
       List.replicate ((enc.run + n) / 62) (QOI_OP_RUN ||| 61)) := by
  induction n with
  | zero =>
    intro enc h hr
    rw [List.replicate_zero, encode_pixels_nil, Nat.add_zero,
      Nat.mod_eq_of_lt (by omega), Nat.div_eq_of_lt (by omega),
      List.replicate_zero]
  | succ n ihn =>
    intro enc h hr
    rw [List.replicate_succ, encode_pixels_cons]
    by_cases hc : enc.run + 1 = 62
    · rw [write_pixel_near_cap enc p h hc]
      simp only [List.cons_append, List.nil_append]
      rw [ihn { enc with run := 0 } h (Nat.zero_le 61)]
      simp only [Prod.mk.injEq]
      constructor
      · rw [show (0 + n) % 62 = (enc.run + (n + 1)) % 62 from by omega]
      · rw [show (enc.run + (n + 1)) / 62 = (0 + n) / 62 + 1 from by omega,
          List.replicate_succ]
    · rw [write_pixel_near_nocap enc p h hc]
      simp only [List.nil_append]
      rw [ihn { enc with run := enc.run + 1 } h
        (by show enc.run + 1 ≤ 61; omega)]
      simp only [Prod.mk.injEq]
      constructor
      · rw [show (enc.run + 1 + n) % 62 = (enc.run + (n + 1)) % 62 from
          by omega]
      · rw [show (enc.run + 1 + n) / 62 = (enc.run + (n + 1)) / 62 from
          by omega]

/-! ### Claims -/

/-- Witness for claim C1 at a concrete pixel list containing a run, an
INDEX-able repeat, an alpha change and differential pixels. -/
theorem C1_lossless_roundtrip_witness :
    (∀ p ∈ ([⟨3, 4, 5, 255⟩, ⟨3, 4, 5, 255⟩, ⟨3, 4, 5, 255⟩, ⟨200, 0, 0, 7⟩,
        ⟨201, 1, 1, 7⟩, ⟨3, 4, 5, 255⟩] : List Pix), p.valid) ∧
    qoi_decode ((qoi_encode_pixels (qoi_encoder_init 0)
        [⟨3, 4, 5, 255⟩, ⟨3, 4, 5, 255⟩, ⟨3, 4, 5, 255⟩, ⟨200, 0, 0, 7⟩,
         ⟨201, 1, 1, 7⟩, ⟨3, 4, 5, 255⟩]).2
      ++ qoi_finalize (qoi_encode_pixels (qoi_encoder_init 0)
        [⟨3, 4, 5, 255⟩, ⟨3, 4, 5, 255⟩, ⟨3, 4, 5, 255⟩, ⟨200, 0, 0, 7⟩,
         ⟨201, 1, 1, 7⟩, ⟨3, 4, 5, 255⟩]).1)
      ⟨0, 0, 0, 255⟩ (List.replicate 64 zeroPix) =
      [⟨3, 4, 5, 255⟩, ⟨3, 4, 5, 255⟩, ⟨3, 4, 5, 255⟩, ⟨200, 0, 0, 7⟩,
       ⟨201, 1, 1, 7⟩, ⟨3, 4, 5, 255⟩] :=
  ⟨by decide, C1_lossless_roundtrip _ (by decide)⟩

/-- Claim C2: a pixel passing the near test leaves the previous pixel, the
64-slot cache and the threshold unchanged (only the run counter changes);
consequently after any run of near pixels the previous-pixel state still
holds the anchor pixel of the run. -/
theorem C2_near_run_frame (enc : qoi_encoder) (px : Pix)
    (h : qoi_px_near px enc.prev_px enc.lossiness = true) :
    (qoi_write_pixel enc px).1.prev_px = enc.prev_px ∧
    (qoi_write_pixel enc px).1.index = enc.index ∧
    (qoi_write_pixel enc px).1.lossiness = enc.lossiness ∧
    ∀ pxs : List Pix,
      (∀ p ∈ pxs, qoi_px_near p enc.prev_px enc.lossiness = true) →
      (qoi_encode_pixels enc pxs).1.prev_px = enc.prev_px := by
  refine ⟨?_, ?_, write_pixel_lossiness enc px,
    fun pxs hall => encode_near_anchor pxs enc hall⟩
  · rw [write_pixel_prev, if_pos h]
  · by_cases hc : enc.run + 1 = 62
    · rw [write_pixel_near_cap enc px h hc]
    · rw [write_pixel_near_nocap enc px h hc]

/-- Witness for claim C2: the second copy of the initial previous pixel is
absorbed and the anchor is kept. -/
theorem C2_near_run_frame_witness :
    (qoi_write_pixel (qoi_encoder_init 0) ⟨0, 0, 0, 255⟩).1.prev_px =
      (qoi_encoder_init 0).prev_px ∧
    (qoi_encode_pixels (qoi_encoder_init 0)
        [⟨0, 0, 0, 255⟩, ⟨0, 0, 0, 255⟩]).1.prev_px =
      (qoi_encoder_init 0).prev_px :=
  ⟨(C2_near_run_frame (qoi_encoder_init 0) ⟨0, 0, 0, 255⟩ (by decide)).1,
   (C2_near_run_frame (qoi_encoder_init 0) ⟨0, 0, 0, 255⟩ (by decide)).2.2.2
     [⟨0, 0, 0, 255⟩, ⟨0, 0, 0, 255⟩] (by decide)⟩

/-- Claim C3: the run counter is at most 61 after initialization and after
every `qoi_write_pixel` call (assuming it was below the cap before); every
RUN opcode stores count − 1 (the cap flush stores 61), the finalize flush
stores count − 1, and no RUN opcode in a full encoded stream encodes a
run length above 62. -/
theorem C3_run_invariants :
    (∀ t : Int, (qoi_encoder_init t).run ≤ 61) ∧
    (∀ (enc : qoi_encoder) (px : Pix), enc.run ≤ 61 →
      (qoi_write_pixel enc px).1.run ≤ 61) ∧
    (∀ (enc : qoi_encoder) (px : Pix),
      qoi_px_near px enc.prev_px enc.lossiness = true → enc.run + 1 = 62 →
      (qoi_write_pixel enc px).2 = [QOI_OP_RUN ||| 61]) ∧
    (∀ (enc : qoi_encoder) (px : Pix),
      qoi_px_near px enc.prev_px enc.lossiness = false → 0 < enc.run →
      ∃ rest, (qoi_write_pixel enc px).2 =
        (QOI_OP_RUN ||| (enc.run - 1)) :: rest) ∧
    (∀ enc : qoi_encoder, 0 < enc.run →
      qoi_finalize enc = [QOI_OP_RUN ||| (enc.run - 1)]) ∧
    (∀ (t : Int) (pxs : List Pix),
      (qoi_encode_pixels (qoi_encoder_init t) pxs).1.run ≤ 61) ∧
    (∀ (t : Int) (pxs : List Pix),
      ∀ v ∈ runOps ((qoi_encode_pixels (qoi_encoder_init t) pxs).2
        ++ qoi_finalize (qoi_encode_pixels (qoi_encoder_init t) pxs).1),
      v ≤ 62) :=
  ⟨fun _ => Nat.zero_le 61, write_pixel_run_le,
   fun enc px h hc => by rw [write_pixel_near_cap enc px h hc],
   write_pixel_flush_head, qoi_finalize_pos,
   fun t pxs => (encode_runOps pxs (qoi_encoder_init t) (Nat.zero_le 61)).1,
   fun t pxs => (encode_runOps pxs (qoi_encoder_init t) (Nat.zero_le 61)).2⟩

/-- Witness for claim C3 at concrete inputs. -/
theorem C3_run_invariants_witness :
    (qoi_write_pixel (qoi_encoder_init 0) ⟨1, 2, 3, 255⟩).1.run ≤ 61 ∧
    (qoi_encode_pixels (qoi_encoder_init 0)
        [⟨0, 0, 0, 255⟩, ⟨9, 9, 9, 255⟩]).1.run ≤ 61 ∧
    ∀ v ∈ runOps ((qoi_encode_pixels (qoi_encoder_init 0)
        [⟨0, 0, 0, 255⟩, ⟨9, 9, 9, 255⟩]).2
      ++ qoi_finalize (qoi_encode_pixels (qoi_encoder_init 0)
        [⟨0, 0, 0, 255⟩, ⟨9, 9, 9, 255⟩]).1), v ≤ 62 :=
  ⟨C3_run_invariants.2.1 _ _ (by decide),
   C3_run_invariants.2.2.2.2.2.1 0 _,
   C3_run_invariants.2.2.2.2.2.2 0 _⟩

/-- Counterexample to claim C4: run absorption is not monotone in the
threshold.  For red values 3, 5, 1 the encoder at threshold 2 absorbs two
pixels but at threshold 3 only one, because the higher threshold keeps the
run anchored at the initial previous pixel. -/
theorem C4_monotonicity_counterexample :
    ¬(∀ (pxs : List Pix) (t1 t2 : Int), 0 ≤ t1 → t1 ≤ t2 →
      runAbsorbed (qoi_encoder_init t1) pxs ≤
        runAbsorbed (qoi_encoder_init t2) pxs) := fun hmono =>
  absurd (hmono [⟨3, 0, 0, 255⟩, ⟨5, 0, 0, 255⟩, ⟨1, 0, 0, 255⟩] 2 3
    (by decide) (by decide)) (by decide)

/-- Claim C4 (amended): raising the threshold from 0 to any t ≥ 0 never
decreases the number of pixels absorbed into runs. -/
theorem C4_monotone_from_zero (pxs : List Pix) (t : Int) (ht : 0 ≤ t) :
    runAbsorbed (qoi_encoder_init 0) pxs ≤
      runAbsorbed (qoi_encoder_init t) pxs := by
  rw [runAbsorbed_eq, runAbsorbed_eq]
  exact absorb_mono_zero pxs ⟨0, 0, 0, 255⟩ ⟨0, 0, 0, 255⟩ t
    (near_self ⟨0, 0, 0, 255⟩ t ht)

/-- Witness for claim C4 (amended) at a concrete list and threshold. -/
theorem C4_monotone_from_zero_witness :
    runAbsorbed (qoi_encoder_init 0) [⟨1, 1, 1, 255⟩, ⟨1, 1, 1, 255⟩] ≤
      runAbsorbed (qoi_encoder_init 2) [⟨1, 1, 1, 255⟩, ⟨1, 1, 1, 255⟩] :=
  C4_monotone_from_zero [⟨1, 1, 1, 255⟩, ⟨1, 1, 1, 255⟩] 2 (by decide)

/-- Counterexample to claim C5: for a pixel that is not near the initial
previous pixel (0,0,0,255) — here (100,100,100,255) at threshold 0 — the
first pixel is written literally and only 99 pixels are absorbed, so the
two RUN opcodes encode lengths 62 and 37, not 62 and 38. -/
theorem C5_run_cap_counterexample :
    runOps ((qoi_encode_pixels (qoi_encoder_init 0)
        (List.replicate 100 ⟨100, 100, 100, 255⟩)).2
      ++ qoi_finalize (qoi_encode_pixels (qoi_encoder_init 0)
        (List.replicate 100 ⟨100, 100, 100, 255⟩)).1) = [62, 37] ∧
    ¬(runOps ((qoi_encode_pixels (qoi_encoder_init 0)
        (List.replicate 100 ⟨100, 100, 100, 255⟩)).2
      ++ qoi_finalize (qoi_encode_pixels (qoi_encoder_init 0)
        (List.replicate 100 ⟨100, 100, 100, 255⟩)).1) = [62, 38]) := by
  decide

/-- Claim C5 (amended): for every pixel that passes the near test against
the initial previous pixel (0,0,0,255) at a threshold ≥ 0, a sequence of
100 copies produces exactly two RUN opcodes, of lengths 62 and 38, and no
RUN opcode encodes a run longer than 62. -/
theorem C5_run_cap (p : Pix) (t : Int) (ht : 0 ≤ t)
    (hnear : qoi_px_near p ⟨0, 0, 0, 255⟩ t = true) :
    runOps ((qoi_encode_pixels (qoi_encoder_init t)
        (List.replicate 100 p)).2
      ++ qoi_finalize (qoi_encode_pixels (qoi_encoder_init t)
        (List.replicate 100 p)).1) = [62, 38] ∧
    ∀ v ∈ ([62, 38] : List Nat), v ≤ 62 := by
  have henc := encode_replicate_near p 100 (qoi_encoder_init t) hnear
    (Nat.zero_le 61)
  have h38 : ((qoi_encoder_init t).run + 100) % 62 = 38 := by
    norm_num [qoi_encoder_init]
  have h1 : ((qoi_encoder_init t).run + 100) / 62 = 1 := by
    norm_num [qoi_encoder_init]
  rw [h38, h1] at henc
  rw [henc]
  have hfin : qoi_finalize { qoi_encoder_init t with run := 38 } =
      [QOI_OP_RUN ||| 37] := by
    rw [qoi_finalize_pos _ (by show (0 : Nat) < 38; decide)]
    rfl
  constructor
  · simp only [hfin, List.replicate_one]
    decide
  · decide

/-- Witness for claim C5 (amended) at the initial previous pixel itself. -/
theorem C5_run_cap_witness :
    runOps ((qoi_encode_pixels (qoi_encoder_init 0)
        (List.replicate 100 ⟨0, 0, 0, 255⟩)).2
      ++ qoi_finalize (qoi_encode_pixels (qoi_encoder_init 0)
        (List.replicate 100 ⟨0, 0, 0, 255⟩)).1) = [62, 38] :=
  (C5_run_cap ⟨0, 0, 0, 255⟩ 0 (by decide) (by decide)).1

/-- Counterexample to claim C6: a pixel that passes the near test is
absorbed into the pending run even when its cache slot holds it exactly,
and no INDEX opcode is emitted.  The state is reachable: encode the zero
pixel twice from a fresh threshold-0 encoder; the second call sees its
slot filled yet emits nothing. -/
theorem C6_cache_hit_counterexample :
    (qoi_write_pixel (qoi_encoder_init 0) ⟨0, 0, 0, 0⟩).1.index.getD
        (qoi_color_hash ⟨0, 0, 0, 0⟩) zeroPix = ⟨0, 0, 0, 0⟩ ∧
    (qoi_write_pixel (qoi_write_pixel (qoi_encoder_init 0) ⟨0, 0, 0, 0⟩).1
        ⟨0, 0, 0, 0⟩).2 = [] := by
  decide

/-- Claim C6 (amended): when the pixel additionally fails the near test
against the previous pixel, a cache hit emits exactly the one INDEX byte
naming the slot (after any pending run flush) and never a longer form. -/
theorem C6_cache_hit_index (enc : qoi_encoder) (px : Pix)
    (hslot : enc.index.getD (qoi_color_hash px) zeroPix = px)
    (hnear : qoi_px_near px enc.prev_px enc.lossiness = false) :
    (qoi_write_pixel enc px).2 =
      (if 0 < enc.run then [QOI_OP_RUN ||| (enc.run - 1)] else [])
        ++ [QOI_OP_INDEX ||| qoi_color_hash px] := by
  by_cases hr : 0 < enc.run
  · rw [write_pixel_flush_split enc px hnear,
      write_pixel_hit { enc with run := 0 } px hnear rfl hslot,
      qoi_finalize_pos enc hr, if_pos hr]
  · have hr0 : enc.run = 0 := by omega
    rw [write_pixel_hit enc px hnear hr0 hslot, if_neg hr]
    rfl

/-- Witness for claim C6 (amended): a synthetic state whose slot 14 holds
the pixel (1,2,3,4). -/
theorem C6_cache_hit_index_witness :
    (qoi_write_pixel ⟨0, ⟨9, 9, 9, 255⟩,
        (List.replicate 64 zeroPix).set 14 ⟨1, 2, 3, 4⟩, 0⟩
      ⟨1, 2, 3, 4⟩).2 = [QOI_OP_INDEX ||| 14] := by
  rw [C6_cache_hit_index ⟨0, ⟨9, 9, 9, 255⟩,
    (List.replicate 64 zeroPix).set 14 ⟨1, 2, 3, 4⟩, 0⟩ ⟨1, 2, 3, 4⟩
    (by decide) (by decide)]
  decide

/-- Counterexample to claim C7: a pixel differing from the previous pixel
only in alpha emits a 1-byte INDEX opcode, not RGBA, when its cache slot
holds it exactly.  The state is reachable by encoding (5,5,5,7) then
(5,5,5,9) at threshold 0. -/
theorem C7_alpha_counterexample :
    (qoi_encode_pixels (qoi_encoder_init 0)
        [⟨5, 5, 5, 7⟩, ⟨5, 5, 5, 9⟩]).1.prev_px = ⟨5, 5, 5, 9⟩ ∧
    (qoi_write_pixel (qoi_encode_pixels (qoi_encoder_init 0)
        [⟨5, 5, 5, 7⟩, ⟨5, 5, 5, 9⟩]).1 ⟨5, 5, 5, 7⟩).2 =
      [QOI_OP_INDEX ||| 24] ∧
    ¬((qoi_write_pixel (qoi_encode_pixels (qoi_encoder_init 0)
        [⟨5, 5, 5, 7⟩, ⟨5, 5, 5, 9⟩]).1 ⟨5, 5, 5, 7⟩).2 =
      [QOI_OP_RGBA, 5, 5, 5, 7]) := by
  decide

/-- Claim C7 (amended): a pixel differing from the previous pixel only in
alpha never passes the near test (never merges into a run) and never uses
the DIFF or LUMA forms; when its cache slot does not hold it exactly, the
encoder emits the RGBA opcode followed by the four raw bytes (a cache hit
emits a 1-byte INDEX instead). -/
theorem C7_alpha_exactness (enc : qoi_encoder) (px : Pix)
    (hr : px.r = enc.prev_px.r) (hg : px.g = enc.prev_px.g)
    (hbb : px.b = enc.prev_px.b) (ha : px.a ≠ enc.prev_px.a) :
    qoi_px_near px enc.prev_px enc.lossiness = false ∧
    (enc.index.getD (qoi_color_hash px) zeroPix ≠ px →
      (qoi_write_pixel enc px).2 =
        (if 0 < enc.run then [QOI_OP_RUN ||| (enc.run - 1)] else [])
          ++ [QOI_OP_RGBA, px.r, px.g, px.b, px.a]) := by
  have hnear : qoi_px_near px enc.prev_px enc.lossiness = false := by
    apply bool_eq_false
    intro hq
    rw [near_iff] at hq
    exact ha hq.2.2.2
  refine ⟨hnear, fun hmiss => ?_⟩
  have hda : ¬((px.a : Int) - (enc.prev_px.a : Int) = 0) := by
    intro h0
    apply ha
    omega
  by_cases hrr : 0 < enc.run
  · rw [write_pixel_flush_split enc px hnear,
      write_pixel_miss_rgba { enc with run := 0 } px hnear rfl hmiss
        (fun hc => hda hc.1) (fun hc => hda hc.1) ha,
      qoi_finalize_pos enc hrr, if_pos hrr]
  · have hr0 : enc.run = 0 := by omega
    rw [write_pixel_miss_rgba enc px hnear hr0 hmiss (fun hc => hda hc.1)
      (fun hc => hda hc.1) ha, if_neg hrr]
    rfl

/-- Witness for claim C7 (amended): pixel (0,0,0,7) against the fresh
encoder state with previous pixel (0,0,0,255). -/
theorem C7_alpha_exactness_witness :
    qoi_px_near ⟨0, 0, 0, 7⟩ (qoi_encoder_init 0).prev_px
      (qoi_encoder_init 0).lossiness = false ∧
    (qoi_write_pixel (qoi_encoder_init 0) ⟨0, 0, 0, 7⟩).2 =
      [QOI_OP_RGBA, 0, 0, 0, 7] := by
  obtain ⟨h1, h2⟩ := C7_alpha_exactness (qoi_encoder_init 0) ⟨0, 0, 0, 7⟩
    rfl rfl rfl (by decide)
  refine ⟨h1, ?_⟩
  rw [h2 (by decide)]
  decide

/-- Counterexample to claim C8: the output of the 2×1 scenario is 25
bytes, not 23; the claim omits the 2-byte LUMA opcode of the first pixel. -/
theorem C8_scenario_counterexample :
    ¬((convert_to_qoi [⟨10, 10, 10, 255⟩, ⟨11, 9, 11, 255⟩] 2 1 4 0).length
      = 23) := by
  decide

/-- Claim C8 (amended): encoding the 2×1 four-channel image (10,10,10,255),
(11,9,11,255) at threshold 0 produces exactly the 14-byte header(2,1,4,0),
a two-byte LUMA opcode (bytes 170, 136) for the first pixel, one
single-byte DIFF opcode (byte 119) for the second pixel, and the 8-byte
footer — 25 bytes in total. -/
theorem C8_concrete_scenario :
    convert_to_qoi [⟨10, 10, 10, 255⟩, ⟨11, 9, 11, 255⟩] 2 1 4 0 =
      [113, 111, 105, 102, 0, 0, 0, 2, 0, 0, 0, 1, 4, 0,
       170, 136, 119, 0, 0, 0, 0, 0, 0, 0, 1] ∧
    (convert_to_qoi [⟨10, 10, 10, 255⟩, ⟨11, 9, 11, 255⟩] 2 1 4 0).length
      = 25 := by
  decide

/-- Counterexample to claim C9: the channel-count byte is the channel
count of the source taken verbatim; a 1-channel (grayscale) source produces the
byte 1, which is neither 3 nor 4. -/
theorem C9_header_counterexample :
    (convert_to_qoi [] 2 1 1 0).getD 12 0 = 1 ∧
    ¬((convert_to_qoi [] 2 1 1 0).getD 12 0 = 3 ∨
      (convert_to_qoi [] 2 1 1 0).getD 12 0 = 4) := by
  decide

/-- Claim C9 (amended): for every input the output starts with the 14-byte
header — magic "qoif", width and height as big-endian uint32, the channel
count copied from the source (3 or 4 for color sources, but 1 or 2 for
grayscale), and a zero color-space byte — and ends with the fixed 8-byte
terminator 00 00 00 00 00 00 00 01, regardless of pixel content. -/
theorem C9_framing (pxs : List Pix) (w hgt c : Nat) (t : Int)
    (hw : w < 4294967296) (hh : hgt < 4294967296) :
    (convert_to_qoi pxs w hgt c t).take 14 =
      [113, 111, 105, 102,
       w / 16777216, w / 65536 % 256, w / 256 % 256, w % 256,
       hgt / 16777216, hgt / 65536 % 256, hgt / 256 % 256, hgt % 256,
       c % 256, 0] ∧
    (convert_to_qoi pxs w hgt c t).drop
        ((convert_to_qoi pxs w hgt c t).length - 8) =
      [0, 0, 0, 0, 0, 0, 0, 1] := by
  constructor
  · have e1 : w >>> 24 % 256 = w / 16777216 := by
      rw [Nat.shiftRight_eq_div_pow]
      norm_num
      omega
    have e2 : w >>> 16 % 256 = w / 65536 % 256 := by
      rw [Nat.shiftRight_eq_div_pow]
    have e3 : w >>> 8 % 256 = w / 256 % 256 := by
      rw [Nat.shiftRight_eq_div_pow]
    have f1 : hgt >>> 24 % 256 = hgt / 16777216 := by
      rw [Nat.shiftRight_eq_div_pow]
      norm_num
      omega
    have f2 : hgt >>> 16 % 256 = hgt / 65536 % 256 := by
      rw [Nat.shiftRight_eq_div_pow]
    have f3 : hgt >>> 8 % 256 = hgt / 256 % 256 := by
      rw [Nat.shiftRight_eq_div_pow]
    simp only [convert_to_qoi, List.append_assoc]
    rw [List.take_left' (show (qoi_write_header w hgt c).length = 14 by
      simp [qoi_write_header])]
    simp only [qoi_write_header, e1, e2, e3, f1, f2, f3]
  · rw [show convert_to_qoi pxs w hgt c t =
      (qoi_write_header w hgt c
        ++ (qoi_encode_pixels (qoi_encoder_init t) pxs).2
        ++ qoi_finalize (qoi_encode_pixels (qoi_encoder_init t) pxs).1)
      ++ qoi_write_footer from rfl]
    rw [List.length_append,
      show qoi_write_footer.length = 8 from rfl,
      Nat.add_sub_cancel, List.drop_left]
    rfl

/-- Witness for claim C9 (amended) at a concrete 2×1 four-channel input. -/
theorem C9_framing_witness :
    (convert_to_qoi [] 2 1 4 0).take 14 =
      [113, 111, 105, 102, 0, 0, 0, 2, 0, 0, 0, 1, 4, 0] ∧
    (convert_to_qoi [] 2 1 4 0).drop ((convert_to_qoi [] 2 1 4 0).length - 8)
      = [0, 0, 0, 0, 0, 0, 0, 1] := by
  obtain ⟨h1, h2⟩ := C9_framing [] 2 1 4 0 (by decide) (by decide)
  refine ⟨?_, h2⟩
  rw [h1]

/-- Claim C10: with a negative threshold, the near test rejects every pair
of pixels — identical pixels included; consequently the run
counter is never incremented and the opcode stream contains no RUN opcode
for any pixel sequence. -/
theorem C10_negative_threshold (t : Int) (ht : t < 0) :
    (∀ a b : Pix, qoi_px_near a b t = false) ∧
    (∀ (enc : qoi_encoder) (px : Pix), enc.lossiness = t →
      (qoi_write_pixel enc px).1.run = 0) ∧
    (∀ pxs : List Pix,
      (qoi_encode_pixels (qoi_encoder_init t) pxs).1.run = 0) ∧
    (∀ pxs : List Pix,
      runOps ((qoi_encode_pixels (qoi_encoder_init t) pxs).2
        ++ qoi_finalize (qoi_encode_pixels (qoi_encoder_init t) pxs).1)
      = []) := by
  refine ⟨near_neg t ht, ?_, ?_, ?_⟩
  · intro enc px hl
    exact write_pixel_run_nonnear enc px
      (by rw [hl]; exact near_neg t ht px enc.prev_px)
  · intro pxs
    exact (encode_neg t ht pxs (qoi_encoder_init t) rfl rfl).1
  · intro pxs
    exact (encode_neg t ht pxs (qoi_encoder_init t) rfl rfl).2

/-- Witness for claim C10 at threshold −1 and a two-pixel constant list. -/
theorem C10_negative_threshold_witness :
    qoi_px_near ⟨7, 7, 7, 7⟩ ⟨7, 7, 7, 7⟩ (-1) = false ∧
    (qoi_encode_pixels (qoi_encoder_init (-1))
        [⟨7, 7, 7, 7⟩, ⟨7, 7, 7, 7⟩]).1.run = 0 ∧
    runOps ((qoi_encode_pixels (qoi_encoder_init (-1))
        [⟨7, 7, 7, 7⟩, ⟨7, 7, 7, 7⟩]).2
      ++ qoi_finalize (qoi_encode_pixels (qoi_encoder_init (-1))
        [⟨7, 7, 7, 7⟩, ⟨7, 7, 7, 7⟩]).1) = [] := by
  obtain ⟨h1, h2, h3, h4⟩ := C10_negative_threshold (-1) (by decide)
  exact ⟨h1 _ _, h3 _, h4 _⟩
